import Mathlib

/-!
Verification of the order-hashing core (`LibOrder.sol`) and the browser
websocket orderbook channel (`browser_ws_orderbook_channel.ts`) of the
0x monorepo, against its natural-language specification.

The Keccak-256 hash function is modelled symbolically: a `Packed` value is
the byte stream fed to the hash (Solidity's old-style `keccak256(a, b, ...)`
packed-encodes its arguments and concatenates them), and a `Digest` is the
free image of its preimage stream.  A 32-byte digest occurring inside a
packed stream is kept as a symbolic `dig` node.  This makes the hash
injective by construction, which is exactly the "modelled injective /
collision-resistant" idealization the specification appeals to; every other
part of the encoding (byte widths, big-endian truncation, field order) is
modelled concretely at the byte level.
-/

/-- A packed byte stream, the input of the modelled Keccak-256.
`byte b rest` is a single byte followed by the rest of the stream;
`dig p rest` is the 32-byte Keccak-256 digest of the stream `p`,
followed by the rest of the stream. -/
inductive Packed where
  | nil : Packed
  | byte : Nat → Packed → Packed
  | dig : Packed → Packed → Packed
deriving DecidableEq

/-- A 256-bit Keccak digest, identified (injectively, the idealization) by
its preimage stream. -/
structure Digest where
  pre : Packed
deriving DecidableEq

/-- The modelled Keccak-256 hash of a packed byte stream. -/
def keccak256 (p : Packed) : Digest := ⟨p⟩

/-- The hash model is injective: this is the symbolic idealization of
collision resistance used throughout. -/
theorem keccak256_injEq (p q : Packed) : keccak256 p = keccak256 q ↔ p = q := by
  constructor
  · intro h
    exact congrArg Digest.pre h
  · intro h
    exact congrArg keccak256 h

/-- Prepend a list of bytes onto a packed stream. -/
def ofBytes : List Nat → Packed → Packed
  | [], r => r
  | b :: bs, r => Packed.byte b (ofBytes bs r)

/-- Concatenation of packed streams. -/
def Packed.append : Packed → Packed → Packed
  | .nil, q => q
  | .byte b p, q => .byte b (p.append q)
  | .dig d p, q => .dig d (p.append q)

/-- The bytes of a stream that sit at the top level, i.e. outside every
digest node. -/
def Packed.topBytes : Packed → List Nat
  | .nil => []
  | .byte b p => b :: p.topBytes
  | .dig _ p => p.topBytes

/-- Big-endian byte encoding of a natural number at a fixed width `w`
(the value is truncated modulo `256 ^ w`, as the EVM does). -/
def natToBytesBE : Nat → Nat → List Nat
  | 0, _ => []
  | w + 1, n => natToBytesBE w (n / 256) ++ [n % 256]

/-- Big-endian decoding, left inverse of `natToBytesBE` below the width bound. -/
def bytesBEToNat (l : List Nat) : Nat :=
  l.foldl (fun a b => a * 256 + b) 0

/-- Byte encoding of a string (the schema constants are ASCII literals). -/
def stringBytes (s : String) : List Nat :=
  s.data.map Char.toNat

namespace LibOrder

/-- Packed encoding of a Solidity `address` argument: 20 bytes, big-endian. -/
def encodeAddress (a : Nat) (rest : Packed) : Packed :=
  ofBytes (natToBytesBE 20 a) rest

/-- Packed encoding of a Solidity `uint256` argument: 32 bytes, big-endian. -/
def encodeUint256 (n : Nat) (rest : Packed) : Packed :=
  ofBytes (natToBytesBE 32 n) rest

/-- Packed encoding of a Solidity `bytes` value: its raw bytes. -/
def encodeBytes (bs : List Nat) : Packed :=
  ofBytes bs .nil

/-- Packed encoding of a `bytes32` digest argument: the 32 digest bytes,
kept symbolic. -/
def encodeBytes32 (d : Digest) (rest : Packed) : Packed :=
  .dig d.pre rest

/-- The string literal hashed into `DOMAIN_SEPARATOR_SCHEMA_HASH`. -/
def domainSeparatorSchemaString : String :=
  "DomainSeparator(address contract)"

/-- `DOMAIN_SEPARATOR_SCHEMA_HASH = keccak256("DomainSeparator(address contract)")`. -/
def DOMAIN_SEPARATOR_SCHEMA_HASH : Digest :=
  keccak256 (ofBytes (stringBytes domainSeparatorSchemaString) .nil)

/-- The concatenation of the string literals hashed into `ORDER_SCHEMA_HASH`,
exactly as listed in the source. -/
def orderSchemaString : String :=
  "Order(" ++
  "address makerAddress," ++
  "address takerAddress," ++
  "address feeRecipientAddress," ++
  "address senderAddress," ++
  "uint256 makerAssetAmount," ++
  "uint256 takerAssetAmount," ++
  "uint256 makerFee," ++
  "uint256 takerFee," ++
  "uint256 expirationTimeSeconds," ++
  "uint256 salt," ++
  "bytes makerAssetData," ++
  "bytes takerAssetData," ++
  ")"

/-- `ORDER_SCHEMA_HASH`, the schema-identity constant of the `Order` record. -/
def ORDER_SCHEMA_HASH : Digest :=
  keccak256 (ofBytes (stringBytes orderSchemaString) .nil)

/-- The `Order` struct of `LibOrder.sol`.  Addresses are 160-bit and the
amount fields 256-bit unsigned integers; the two asset-data payloads are
variable-length byte sequences. -/
structure Order where
  makerAddress : Nat
  takerAddress : Nat
  feeRecipientAddress : Nat
  senderAddress : Nat
  makerAssetAmount : Nat
  takerAssetAmount : Nat
  makerFee : Nat
  takerFee : Nat
  expirationTimeSeconds : Nat
  salt : Nat
  makerAssetData : List Nat
  takerAssetData : List Nat
deriving DecidableEq

/-- Well-formedness of an `Order`: every scalar field fits its Solidity
type (addresses below `2 ^ 160 = 256 ^ 20`, integers below `2 ^ 256`). -/
def Order.WF (o : Order) : Prop :=
  o.makerAddress < 256 ^ 20 ∧ o.takerAddress < 256 ^ 20 ∧
  o.feeRecipientAddress < 256 ^ 20 ∧ o.senderAddress < 256 ^ 20 ∧
  o.makerAssetAmount < 256 ^ 32 ∧ o.takerAssetAmount < 256 ^ 32 ∧
  o.makerFee < 256 ^ 32 ∧ o.takerFee < 256 ^ 32 ∧
  o.expirationTimeSeconds < 256 ^ 32 ∧ o.salt < 256 ^ 32

instance (o : Order) : Decidable o.WF := by
  unfold Order.WF
  infer_instance

/-- The packed stream hashed by the inner `keccak256` of `getOrderHash`:
the twelve arguments `order.makerAddress, ..., order.salt,
keccak256(order.makerAssetData), keccak256(order.takerAssetData)`
concatenated in source order. -/
def orderFieldsStream (order : Order) : Packed :=
  encodeAddress order.makerAddress <|
  encodeAddress order.takerAddress <|
  encodeAddress order.feeRecipientAddress <|
  encodeAddress order.senderAddress <|
  encodeUint256 order.makerAssetAmount <|
  encodeUint256 order.takerAssetAmount <|
  encodeUint256 order.makerFee <|
  encodeUint256 order.takerFee <|
  encodeUint256 order.expirationTimeSeconds <|
  encodeUint256 order.salt <|
  encodeBytes32 (keccak256 (encodeBytes order.makerAssetData)) <|
  encodeBytes32 (keccak256 (encodeBytes order.takerAssetData)) .nil

/-- `getOrderHash` of `LibOrder.sol`.  `thisAddress` is `address(this)`,
the identifier of the verifying instance; the body is
`keccak256(DOMAIN_SEPARATOR_SCHEMA_HASH, keccak256(address(this)),
ORDER_SCHEMA_HASH, keccak256(<the twelve order fields>))`. -/
def getOrderHash (order : Order) (thisAddress : Nat) : Digest :=
  keccak256 (
    encodeBytes32 DOMAIN_SEPARATOR_SCHEMA_HASH <|
    encodeBytes32 (keccak256 (encodeAddress thisAddress .nil)) <|
    encodeBytes32 ORDER_SCHEMA_HASH <|
    encodeBytes32 (keccak256 (orderFieldsStream order)) .nil)

end LibOrder

/-- The execution context a Solidity function can observe besides its
explicit arguments.  `LibOrder` declares no storage variables, so the
context is the transaction environment and the contract's own address. -/
structure EvmContext where
  thisAddress : Nat
  msgSender : Nat
  msgValue : Nat
  blockTimestamp : Nat
  blockNumber : Nat
deriving DecidableEq

/-- Word-addressed contract storage (empty for `LibOrder`, which declares
no state variables; kept abstract as an association list). -/
def ContractStorage : Type := List (Nat × Nat)

namespace LibOrder

/-- `getOrderHash` as seen from a full execution context: the body reads
`address(this)` and the two schema constants and nothing else of the
context. -/
def getOrderHashInContext (order : Order) (ctx : EvmContext) : Digest :=
  getOrderHash order ctx.thisAddress

/-- The call-level embedding of the `view` function `getOrderHash`:
the body assigns the hash expression to the return variable and performs
no storage write, so the storage is threaded through unchanged. -/
def getOrderHashCall (order : Order) (ctx : EvmContext) (st : ContractStorage) :
    Digest × ContractStorage :=
  let orderHash := getOrderHash order ctx.thisAddress
  (orderHash, st)

/-- The domain-separator hash exactly as the specification words define it:
`H(H(domain-schema-constant) ‖ H(verifying-instance-identifier))`. -/
def specDomainSeparatorHash (v : Nat) : Digest :=
  keccak256 (
    encodeBytes32 DOMAIN_SEPARATOR_SCHEMA_HASH <|
    encodeBytes32 (keccak256 (encodeAddress v .nil)) .nil)

/-- The order hash exactly as the claim words it:
`H(d ‖ H(v) ‖ order-schema-hash ‖ H(fields ‖ H(makerAssetData) ‖
H(takerAssetData)))` with `d` the composed domain-separator hash
`specDomainSeparatorHash`.  Written from the specification for comparison
against `getOrderHash`. -/
def specOrderHashClaimed (order : Order) (v : Nat) : Digest :=
  keccak256 (
    encodeBytes32 (specDomainSeparatorHash v) <|
    encodeBytes32 (keccak256 (encodeAddress v .nil)) <|
    encodeBytes32 ORDER_SCHEMA_HASH <|
    encodeBytes32 (keccak256 (orderFieldsStream order)) .nil)

/-- The encoding of the ten fixed-width order fields alone, a function of
the ten scalar values and of nothing else (in schema order: four 20-byte
addresses then six 32-byte integers). -/
def fixedFieldsEncoding (ma ta fr sa mAmt tAmt mFee tFee exp slt : Nat) : Packed :=
  Packed.append (encodeAddress ma .nil) <|
  Packed.append (encodeAddress ta .nil) <|
  Packed.append (encodeAddress fr .nil) <|
  Packed.append (encodeAddress sa .nil) <|
  Packed.append (encodeUint256 mAmt .nil) <|
  Packed.append (encodeUint256 tAmt .nil) <|
  Packed.append (encodeUint256 mFee .nil) <|
  Packed.append (encodeUint256 tFee .nil) <|
  Packed.append (encodeUint256 exp .nil) <|
  encodeUint256 slt .nil

/-- The amended specification of the order hash: the outer hash input is
the domain-separator *schema* hash `H(domain-schema-constant)` (not the
composed domain-separator hash), then `H(v)`, then the order-schema hash,
then the combined field hash with the two payloads pre-hashed. -/
def specOrderHashAmended (order : Order) (v : Nat) : Digest :=
  keccak256 (
    encodeBytes32 DOMAIN_SEPARATOR_SCHEMA_HASH <|
    encodeBytes32 (keccak256 (encodeAddress v .nil)) <|
    encodeBytes32 ORDER_SCHEMA_HASH <|
    encodeBytes32 (keccak256 (Packed.append
      (fixedFieldsEncoding order.makerAddress order.takerAddress
        order.feeRecipientAddress order.senderAddress
        order.makerAssetAmount order.takerAssetAmount
        order.makerFee order.takerFee
        order.expirationTimeSeconds order.salt)
      (Packed.append
        (encodeBytes32 (keccak256 (encodeBytes order.makerAssetData)) .nil)
        (encodeBytes32 (keccak256 (encodeBytes order.takerAssetData)) .nil)))) .nil)

end LibOrder

namespace LibOrder

/-- Modelled from the spec: the order-status enumeration lives in an
external `LibStatus` library that is not among the sources; the
specification lists `UNFILLED`, `PARTIALLY_FILLED`, `FULLY_FILLED` and the
terminal invalidation states `EXPIRED`, `CANCELLED`, `INVALID`. -/
inductive OrderStatus where
  | unfilled : OrderStatus
  | partiallyFilled : OrderStatus
  | fullyFilled : OrderStatus
  | expired : OrderStatus
  | cancelled : OrderStatus
  | invalid : OrderStatus
deriving DecidableEq

/-- A status from which the specification says no further fill is accepted. -/
def OrderStatus.isTerminal : OrderStatus → Bool
  | .fullyFilled => true
  | .expired => true
  | .cancelled => true
  | .invalid => true
  | _ => false

/-- The `OrderInfo` struct of `LibOrder.sol`: status, order hash, and the
cumulative taker-asset amount already filled. -/
structure OrderInfo where
  orderStatus : OrderStatus
  orderHash : Digest
  orderTakerAssetFilledAmount : Nat
deriving DecidableEq

/-- Modelled from the spec: `OrderInfo` "is created lazily on first
reference to a given hash (default status, zero filled amount)". -/
def initialOrderInfo (h : Digest) : OrderInfo :=
  { orderStatus := .unfilled, orderHash := h, orderTakerAssetFilledAmount := 0 }

/-- Modelled from the spec: the fill-recording operation of the Order
Status Tracker is not among the sources (only the `OrderInfo` struct is);
the specification requires that a fill against a terminal status, or one
that would push `orderTakerAssetFilledAmount` above `takerAssetAmount`, is
rejected without state change, and that an accepted fill adds its amount
and moves the status to `FULLY_FILLED` exactly when the bound is reached
(`PARTIALLY_FILLED` when `0 < filled < takerAssetAmount`).  A rejection is
`none`. -/
def recordFill (takerAssetAmount : Nat) (info : OrderInfo) (amount : Nat) :
    Option OrderInfo :=
  if info.orderStatus.isTerminal then none
  else if takerAssetAmount < info.orderTakerAssetFilledAmount + amount then none
  else
    let f := info.orderTakerAssetFilledAmount + amount
    some { info with
      orderTakerAssetFilledAmount := f
      orderStatus :=
        if f = takerAssetAmount then .fullyFilled
        else if 0 < f then .partiallyFilled
        else .unfilled }

/-- Run a sequence of fill attempts; a rejected fill leaves the state
unchanged. -/
def applyFills (takerAssetAmount : Nat) (info : OrderInfo) (fills : List Nat) :
    OrderInfo :=
  fills.foldl (fun i a => (recordFill takerAssetAmount i a).getD i) info

end LibOrder

namespace WsChannel

/-- A registered subscription: the options passed at subscribe time and the
handler that receives callbacks.  Both types are opaque to the channel. -/
structure Subscription (Opts Handler : Type) where
  subscriptionOpts : Opts
  handler : Handler
deriving DecidableEq

/-- The outgoing subscribe message built by `subscribe`. -/
structure SubscribeMessage (Opts : Type) where
  msgType : String
  channel : String
  requestId : Nat
  payload : Opts
deriving DecidableEq

/-- The mutable state of a `BrowserWebSocketOrderbookChannel`: its
subscription list and whether the underlying websocket client exists. -/
structure ChannelState (Opts Handler : Type) where
  subscriptions : List (Subscription Opts Handler)
  clientExists : Bool
deriving DecidableEq

/-- `BrowserWebSocketOrderbookChannel.subscribe`: pushes the new
subscription onto the list, then builds the subscribe message with
`requestId = this._subscriptions.length - 1`; the message is sent (either
immediately or from the `onopen` callback of the freshly created client),
and in either branch a client exists afterwards. -/
def subscribe {Opts Handler : Type}
    (st : ChannelState Opts Handler) (subscriptionOpts : Opts) (handler : Handler) :
    ChannelState Opts Handler × SubscribeMessage Opts :=
  let newSubscription : Subscription Opts Handler :=
    { subscriptionOpts := subscriptionOpts, handler := handler }
  let subs := st.subscriptions ++ [newSubscription]
  let subscribeMessage : SubscribeMessage Opts :=
    { msgType := "subscribe", channel := "orderbook",
      requestId := subs.length - 1, payload := subscriptionOpts }
  ({ subscriptions := subs, clientExists := true }, subscribeMessage)

/-- The message types the orderbook channel parser can report. -/
inductive MessageType where
  | snapshot : MessageType
  | update : MessageType
  | unknown : MessageType
deriving DecidableEq

/-- The result of `orderbookChannelMessageParser.parse`: a message type, a
`requestId`, and a payload. -/
structure ParserResult (Payload : Type) where
  msgType : MessageType
  requestId : Nat
  payload : Payload
deriving DecidableEq

/-- An observable handler invocation: which subscription (by list index)
was called, with which options, and through which callback. -/
inductive HandlerEvent (Opts Payload : Type) where
  | onError (i : Nat) (opts : Opts) : HandlerEvent Opts Payload
  | onSnapshot (i : Nat) (opts : Opts) (payload : Payload) : HandlerEvent Opts Payload
  | onUpdate (i : Nat) (opts : Opts) (payload : Payload) : HandlerEvent Opts Payload
deriving DecidableEq

/-- `_alertAllHandlersToError`: invoke `onError` on every registered
subscription, in list order. -/
def alertAllHandlersToError {Opts Handler Payload : Type}
    (subs : List (Subscription Opts Handler)) : List (HandlerEvent Opts Payload) :=
  subs.enum.map (fun p => .onError p.1 p.2.subscriptionOpts)

/-- `_handleWebSocketMessage`: a message with no `data` field alerts every
handler; otherwise the data is parsed (a parse failure is caught and alerts
every handler), the subscription at index `requestId` is looked up (an
unknown `requestId` alerts every handler), and the message is routed to
`onSnapshot`, `onUpdate`, or that subscription's `onError` according to the
parsed type.  `parse` stands for the external
`orderbookChannelMessageParser.parse`; `Except.error` is a thrown
exception. -/
def handleWebSocketMessage {Opts Handler Data Err Payload : Type}
    (subs : List (Subscription Opts Handler)) (msgData : Option Data)
    (parse : Data → Except Err (ParserResult Payload)) :
    List (HandlerEvent Opts Payload) :=
  match msgData with
  | none => alertAllHandlersToError subs
  | some d =>
    match parse d with
    | .error _ => alertAllHandlersToError subs
    | .ok parserResult =>
      match subs[parserResult.requestId]? with
      | none => alertAllHandlersToError subs
      | some subscription =>
        match parserResult.msgType with
        | .snapshot =>
          [.onSnapshot parserResult.requestId subscription.subscriptionOpts
            parserResult.payload]
        | .update =>
          [.onUpdate parserResult.requestId subscription.subscriptionOpts
            parserResult.payload]
        | .unknown =>
          [.onError parserResult.requestId subscription.subscriptionOpts]

end WsChannel

theorem ofBytes_append_list (l1 l2 : List Nat) (r : Packed) :
    ofBytes (l1 ++ l2) r = ofBytes l1 (ofBytes l2 r) := by
  induction l1 with
  | nil => rfl
  | cons a as ih => simp [ofBytes, ih]

@[simp] theorem nil_append (q : Packed) : Packed.nil.append q = q := rfl

@[simp] theorem dig_append (d p q : Packed) :
    (Packed.dig d p).append q = Packed.dig d (p.append q) := rfl

@[simp] theorem ofBytes_append (l : List Nat) (r q : Packed) :
    (ofBytes l r).append q = ofBytes l (r.append q) := by
  induction l with
  | nil => rfl
  | cons a as ih => simp [ofBytes, Packed.append, ih]

theorem natToBytesBE_length (w n : Nat) : (natToBytesBE w n).length = w := by
  induction w generalizing n with
  | zero => rfl
  | succ w ih => simp [natToBytesBE, ih]

theorem bytesBEToNat_natToBytesBE (w n : Nat) :
    bytesBEToNat (natToBytesBE w n) = n % 256 ^ w := by
  induction w generalizing n with
  | zero => simp [natToBytesBE, bytesBEToNat, Nat.mod_one]
  | succ w ih =>
    simp only [natToBytesBE, bytesBEToNat, List.foldl_append, List.foldl] at *
    rw [ih]
    rw [pow_succ, mul_comm (256 ^ w) 256, Nat.mod_mul]
    ring

theorem natToBytesBE_inj (w n1 n2 : Nat) (h1 : n1 < 256 ^ w) (h2 : n2 < 256 ^ w)
    (h : natToBytesBE w n1 = natToBytesBE w n2) : n1 = n2 := by
  have e := congrArg bytesBEToNat h
  rwa [bytesBEToNat_natToBytesBE, bytesBEToNat_natToBytesBE,
    Nat.mod_eq_of_lt h1, Nat.mod_eq_of_lt h2] at e

theorem ofBytes_inj (l1 : List Nat) : ∀ (l2 : List Nat) (r1 r2 : Packed),
    l1.length = l2.length → ofBytes l1 r1 = ofBytes l2 r2 → l1 = l2 ∧ r1 = r2 := by
  induction l1 with
  | nil =>
    intro l2 r1 r2 hlen h
    cases l2 with
    | nil => exact ⟨rfl, h⟩
    | cons b bs => simp at hlen
  | cons a as ih =>
    intro l2 r1 r2 hlen h
    cases l2 with
    | nil => simp at hlen
    | cons b bs =>
      simp only [ofBytes, Packed.byte.injEq] at h
      obtain ⟨hab, hrest⟩ := h
      obtain ⟨hl, hr⟩ := ih bs r1 r2 (by simpa using hlen) hrest
      exact ⟨by rw [hab, hl], hr⟩

theorem ofBytes_nil_inj (l1 : List Nat) : ∀ l2 : List Nat,
    ofBytes l1 Packed.nil = ofBytes l2 Packed.nil → l1 = l2 := by
  induction l1 with
  | nil =>
    intro l2 h
    cases l2 with
    | nil => rfl
    | cons b bs => simp [ofBytes] at h
  | cons a as ih =>
    intro l2 h
    cases l2 with
    | nil => simp [ofBytes] at h
    | cons b bs =>
      simp only [ofBytes, Packed.byte.injEq] at h
      rw [h.1, ih bs h.2]

theorem peelWord (w n1 n2 : Nat) (r1 r2 : Packed) (h1 : n1 < 256 ^ w) (h2 : n2 < 256 ^ w)
    (h : ofBytes (natToBytesBE w n1) r1 = ofBytes (natToBytesBE w n2) r2) :
    n1 = n2 ∧ r1 = r2 := by
  have hlen : (natToBytesBE w n1).length = (natToBytesBE w n2).length := by
    rw [natToBytesBE_length, natToBytesBE_length]
  obtain ⟨he, hr⟩ := ofBytes_inj _ _ _ _ hlen h
  exact ⟨natToBytesBE_inj w n1 n2 h1 h2 he, hr⟩

namespace LibOrder

/-- The invariant maintained by the fill tracker on states reachable by
fills alone: the filled amount is bounded by `takerAssetAmount`, the status
is `FULLY_FILLED` exactly at the bound, and the status is one of the three
fill states. -/
def FillInv (t : Nat) (i : OrderInfo) : Prop :=
  i.orderTakerAssetFilledAmount ≤ t ∧
  (i.orderStatus = .fullyFilled ↔ i.orderTakerAssetFilledAmount = t) ∧
  (i.orderStatus = .unfilled ∨ i.orderStatus = .partiallyFilled ∨
    i.orderStatus = .fullyFilled)

theorem fillInv_initial (t : Nat) (h0 : Digest) (ht : 0 < t) :
    FillInv t (initialOrderInfo h0) := by
  refine ⟨Nat.zero_le t, ?_, Or.inl rfl⟩
  simp [initialOrderInfo]
  omega

theorem recordFill_step_inv (t : Nat) (i : OrderInfo) (a : Nat) (h : FillInv t i) :
    FillInv t ((recordFill t i a).getD i) := by
  obtain ⟨hle, hiff, hst⟩ := h
  unfold recordFill
  by_cases hterm : i.orderStatus.isTerminal
  · simpa [hterm] using ⟨hle, hiff, hst⟩
  · by_cases hov : t < i.orderTakerAssetFilledAmount + a
    · simpa [hterm, hov] using ⟨hle, hiff, hst⟩
    · push_neg at hov
      by_cases hf : i.orderTakerAssetFilledAmount + a = t
      · simp [hterm, Nat.not_lt.mpr hov, hf, FillInv]
      · by_cases hz : 0 < i.orderTakerAssetFilledAmount + a
        · simp [hterm, Nat.not_lt.mpr hov, hf, hz, FillInv]
          exact hov
        · simp [hterm, Nat.not_lt.mpr hov, hf, hz, FillInv]
          exact hov

theorem recordFill_step_mono (t : Nat) (i : OrderInfo) (a : Nat) :
    i.orderTakerAssetFilledAmount ≤
      ((recordFill t i a).getD i).orderTakerAssetFilledAmount := by
  unfold recordFill
  by_cases hterm : i.orderStatus.isTerminal
  · simp [hterm]
  · by_cases hov : t < i.orderTakerAssetFilledAmount + a
    · simp [hterm, hov]
    · simp [hterm, hov]

theorem applyFills_inv (t : Nat) (fills : List Nat) : ∀ i : OrderInfo,
    FillInv t i → FillInv t (applyFills t i fills) := by
  induction fills with
  | nil => intro i h; exact h
  | cons a as ih =>
    intro i h
    exact ih _ (recordFill_step_inv t i a h)

theorem applyFills_mono (t : Nat) (fills : List Nat) : ∀ i : OrderInfo,
    i.orderTakerAssetFilledAmount ≤
      (applyFills t i fills).orderTakerAssetFilledAmount := by
  induction fills with
  | nil => intro i; exact Nat.le_refl _
  | cons a as ih =>
    intro i
    exact Nat.le_trans (recordFill_step_mono t i a) (ih _)

theorem applyFills_append (t : Nat) (i : OrderInfo) (l1 l2 : List Nat) :
    applyFills t i (l1 ++ l2) = applyFills t (applyFills t i l1) l2 := by
  unfold applyFills
  exact List.foldl_append ..

theorem recordFill_of_terminal (t : Nat) (i : OrderInfo) (a : Nat)
    (h : i.orderStatus.isTerminal = true) : recordFill t i a = none := by
  simp [recordFill, h]

theorem recordFill_of_overshoot (t : Nat) (i : OrderInfo) (a : Nat)
    (h : t < i.orderTakerAssetFilledAmount + a) : recordFill t i a = none := by
  unfold recordFill
  by_cases hterm : i.orderStatus.isTerminal
  · simp [hterm]
  · simp [hterm, h]

end LibOrder

namespace WsChannel

theorem mem_alertAll {Opts Handler Payload : Type}
    (subs : List (Subscription Opts Handler)) (ev : HandlerEvent Opts Payload)
    (h : ev ∈ alertAllHandlersToError subs) :
    ∃ i opts, ev = .onError i opts := by
  simp only [alertAllHandlersToError, List.mem_map] at h
  obtain ⟨p, _, rfl⟩ := h
  exact ⟨p.1, p.2.subscriptionOpts, rfl⟩

end WsChannel

@[simp] theorem pre_keccak256 (p : Packed) : (keccak256 p).pre = p := rfl

theorem topBytes_nil : Packed.nil.topBytes = [] := rfl

theorem topBytes_dig (d p : Packed) : (Packed.dig d p).topBytes = p.topBytes := rfl

theorem topBytes_ofBytes (l : List Nat) (r : Packed) :
    (ofBytes l r).topBytes = l ++ r.topBytes := by
  induction l with
  | nil => rfl
  | cons a as ih => simp [ofBytes, Packed.topBytes, ih]

/-- A sample order with every field populated, used as the concrete input
of counterexamples and witnesses. -/
def sampleOrder : LibOrder.Order :=
  { makerAddress := 1, takerAddress := 2, feeRecipientAddress := 3,
    senderAddress := 4, makerAssetAmount := 1000, takerAssetAmount := 2000,
    makerFee := 5, takerFee := 6, expirationTimeSeconds := 7, salt := 8,
    makerAssetData := [171], takerAssetData := [205] }

/-- Counterexample for C1: at a concrete order and verifying instance, the hash
computed by `getOrderHash` differs from the one the claim describes, whose
first outer-hash component is the composed domain-separator hash
`H(H(domain-schema-constant) ‖ H(v))`; the code feeds
`DOMAIN_SEPARATOR_SCHEMA_HASH = H(domain-schema-constant)` directly. -/
theorem getOrderHash_ne_specOrderHashClaimed :
    LibOrder.getOrderHash sampleOrder 99 ≠
      LibOrder.specOrderHashClaimed sampleOrder 99 := by
  decide

/-- Amended C1: for every order and verifying-instance identifier,
`getOrderHash` returns `H(H(domain-schema-constant) ‖ H(v) ‖
order-schema-hash ‖ H(fixed-field-encoding ‖ H(makerAssetData) ‖
H(takerAssetData)))` — the domain-separator schema hash itself, not the
composed domain-separator hash, occupies the first outer slot. -/
theorem getOrderHash_eq_specOrderHashAmended
    (o : LibOrder.Order) (v : Nat) :
    LibOrder.getOrderHash o v = LibOrder.specOrderHashAmended o v := by
  simp [LibOrder.getOrderHash, LibOrder.specOrderHashAmended,
    LibOrder.orderFieldsStream, LibOrder.fixedFieldsEncoding,
    LibOrder.encodeAddress, LibOrder.encodeUint256, LibOrder.encodeBytes32,
    LibOrder.encodeBytes]

/-- Claim C4: the two variable-length payloads never enter the fixed-field byte
stream directly: the inner hash input is the fixed-field encoding (a
function of the ten scalar fields alone) followed by exactly two
fixed-width leaf-hash slots, one per payload; and the top-level bytes of
the inner hash input are unchanged by any replacement of the payloads. -/
theorem orderFieldsStream_leaf_hashes (o : LibOrder.Order) :
    LibOrder.orderFieldsStream o =
      Packed.append
        (LibOrder.fixedFieldsEncoding o.makerAddress o.takerAddress
          o.feeRecipientAddress o.senderAddress o.makerAssetAmount
          o.takerAssetAmount o.makerFee o.takerFee
          o.expirationTimeSeconds o.salt)
        (Packed.append
          (LibOrder.encodeBytes32
            (keccak256 (LibOrder.encodeBytes o.makerAssetData)) Packed.nil)
          (LibOrder.encodeBytes32
            (keccak256 (LibOrder.encodeBytes o.takerAssetData)) Packed.nil))
    ∧ (∀ m t : List Nat,
        (LibOrder.orderFieldsStream
          { o with makerAssetData := m, takerAssetData := t }).topBytes =
        (LibOrder.orderFieldsStream o).topBytes) := by
  constructor
  · simp [LibOrder.orderFieldsStream, LibOrder.fixedFieldsEncoding,
      LibOrder.encodeAddress, LibOrder.encodeUint256, LibOrder.encodeBytes32,
      LibOrder.encodeBytes]
  · intro m t
    simp only [LibOrder.orderFieldsStream, LibOrder.encodeAddress,
      LibOrder.encodeUint256, LibOrder.encodeBytes32, LibOrder.encodeBytes,
      topBytes_ofBytes, topBytes_dig, topBytes_nil]

set_option maxHeartbeats 1000000 in
/-- Claim C5: the ten fixed-width fields are encoded at their natural widths (20
bytes per address, 32 bytes per integer), concatenated in exactly the
schema-declared order, followed by the two asset-data leaf-hash slots. -/
theorem orderFieldsStream_field_order (o : LibOrder.Order) :
    LibOrder.orderFieldsStream o =
      ofBytes
        (natToBytesBE 20 o.makerAddress ++ natToBytesBE 20 o.takerAddress ++
         natToBytesBE 20 o.feeRecipientAddress ++
         natToBytesBE 20 o.senderAddress ++
         natToBytesBE 32 o.makerAssetAmount ++
         natToBytesBE 32 o.takerAssetAmount ++
         natToBytesBE 32 o.makerFee ++ natToBytesBE 32 o.takerFee ++
         natToBytesBE 32 o.expirationTimeSeconds ++ natToBytesBE 32 o.salt)
        (Packed.dig (LibOrder.encodeBytes o.makerAssetData)
          (Packed.dig (LibOrder.encodeBytes o.takerAssetData) Packed.nil))
    ∧ (∀ n : Nat, (natToBytesBE 20 n).length = 20)
    ∧ (∀ n : Nat, (natToBytesBE 32 n).length = 32) := by
  refine ⟨?_, fun n => natToBytesBE_length 20 n, fun n => natToBytesBE_length 32 n⟩
  simp [LibOrder.orderFieldsStream, LibOrder.encodeAddress,
    LibOrder.encodeUint256, LibOrder.encodeBytes32, LibOrder.encodeBytes,
    ofBytes_append_list]

/-- Claim C2: the order-hash computation is deterministic and a pure function of
its explicit inputs: two invocations from execution contexts that agree on
the verifying-instance identifier (but may differ in sender, value, block
time, block number) return the same digest, and either equals the pure
function of `(order, thisAddress)`. -/
theorem getOrderHashInContext_deterministic
    (o : LibOrder.Order) (c1 c2 : EvmContext)
    (h : c1.thisAddress = c2.thisAddress) :
    LibOrder.getOrderHashInContext o c1 = LibOrder.getOrderHashInContext o c2
    ∧ LibOrder.getOrderHashInContext o c1 =
        LibOrder.getOrderHash o c1.thisAddress := by
  constructor
  · simp [LibOrder.getOrderHashInContext, h]
  · rfl

/-- Witness for C2, at two concrete contexts differing in everything but
the verifying-instance identifier. -/
theorem getOrderHashInContext_deterministic_witness :
    LibOrder.getOrderHashInContext sampleOrder
      { thisAddress := 99, msgSender := 1, msgValue := 2,
        blockTimestamp := 3, blockNumber := 4 } =
    LibOrder.getOrderHashInContext sampleOrder
      { thisAddress := 99, msgSender := 50, msgValue := 60,
        blockTimestamp := 70, blockNumber := 80 } :=
  (getOrderHashInContext_deterministic sampleOrder
    { thisAddress := 99, msgSender := 1, msgValue := 2,
      blockTimestamp := 3, blockNumber := 4 }
    { thisAddress := 99, msgSender := 50, msgValue := 60,
      blockTimestamp := 70, blockNumber := 80 } rfl).1

/-- Claim C8: `getOrderHash` is a `view` function: a call returns the pure hash
and leaves the contract storage exactly as it was. -/
theorem getOrderHashCall_preserves_storage
    (o : LibOrder.Order) (ctx : EvmContext) (st : ContractStorage) :
    (LibOrder.getOrderHashCall o ctx st).2 = st
    ∧ (LibOrder.getOrderHashCall o ctx st).1 =
        LibOrder.getOrderHash o ctx.thisAddress :=
  ⟨rfl, rfl⟩

theorem getOrderHash_components (o1 o2 : LibOrder.Order) (v1 v2 : Nat)
    (h : LibOrder.getOrderHash o1 v1 = LibOrder.getOrderHash o2 v2) :
    LibOrder.encodeAddress v1 .nil = LibOrder.encodeAddress v2 .nil ∧
      LibOrder.orderFieldsStream o1 = LibOrder.orderFieldsStream o2 := by
  have hp := congrArg Digest.pre h
  unfold LibOrder.getOrderHash at hp
  simp only [pre_keccak256] at hp
  unfold LibOrder.encodeBytes32 at hp
  injection hp with e1 hp
  injection hp with e2 hp
  injection hp with e3 hp
  injection hp with e4 e5
  constructor
  · simpa using e2
  · simpa using e4

/-- Claim C3: domain separation — two distinct verifying-instance identifiers
(each a valid 160-bit address) never agree on the hash of the same order,
the hash function being modelled injective. -/
theorem getOrderHash_domain_separation
    (o : LibOrder.Order) (v1 v2 : Nat)
    (h1 : v1 < 256 ^ 20) (h2 : v2 < 256 ^ 20) (hne : v1 ≠ v2) :
    LibOrder.getOrderHash o v1 ≠ LibOrder.getOrderHash o v2 := by
  intro h
  obtain ⟨hv, -⟩ := getOrderHash_components o o v1 v2 h
  unfold LibOrder.encodeAddress at hv
  exact hne (peelWord 20 v1 v2 _ _ h1 h2 hv).1

/-- Witness for C3 at the concrete instance identifiers 0 and 1. -/
theorem getOrderHash_domain_separation_witness :
    (0 : Nat) ≠ 1 ∧
      LibOrder.getOrderHash sampleOrder 0 ≠ LibOrder.getOrderHash sampleOrder 1 :=
  ⟨by decide,
    getOrderHash_domain_separation sampleOrder 0 1 (by decide) (by decide)
      (by decide)⟩

/-- Claim C6: field sensitivity — for a fixed verifying instance, the encoding
fed to the hash is injective over well-formed orders, so any change to any
field (including a single byte inside either asset-data payload) changes
the order hash, the hash function being modelled injective. -/
theorem getOrderHash_field_sensitivity
    (o1 o2 : LibOrder.Order) (v : Nat)
    (h1 : o1.WF) (h2 : o2.WF)
    (h : LibOrder.getOrderHash o1 v = LibOrder.getOrderHash o2 v) :
    o1 = o2 := by
  obtain ⟨-, hfs⟩ := getOrderHash_components o1 o2 v v h
  cases o1 with
  | mk m1 t1 f1 s1 ma1 ta1 mf1 tf1 e1 sl1 md1 td1 =>
  cases o2 with
  | mk m2 t2 f2 s2 ma2 ta2 mf2 tf2 e2 sl2 md2 td2 =>
  obtain ⟨b1, b2, b3, b4, b5, b6, b7, b8, b9, b10⟩ := h1
  obtain ⟨c1, c2, c3, c4, c5, c6, c7, c8, c9, c10⟩ := h2
  unfold LibOrder.orderFieldsStream LibOrder.encodeAddress
    LibOrder.encodeUint256 at hfs
  obtain ⟨q1, hfs⟩ := peelWord 20 _ _ _ _ b1 c1 hfs
  obtain ⟨q2, hfs⟩ := peelWord 20 _ _ _ _ b2 c2 hfs
  obtain ⟨q3, hfs⟩ := peelWord 20 _ _ _ _ b3 c3 hfs
  obtain ⟨q4, hfs⟩ := peelWord 20 _ _ _ _ b4 c4 hfs
  obtain ⟨q5, hfs⟩ := peelWord 32 _ _ _ _ b5 c5 hfs
  obtain ⟨q6, hfs⟩ := peelWord 32 _ _ _ _ b6 c6 hfs
  obtain ⟨q7, hfs⟩ := peelWord 32 _ _ _ _ b7 c7 hfs
  obtain ⟨q8, hfs⟩ := peelWord 32 _ _ _ _ b8 c8 hfs
  obtain ⟨q9, hfs⟩ := peelWord 32 _ _ _ _ b9 c9 hfs
  obtain ⟨q10, hfs⟩ := peelWord 32 _ _ _ _ b10 c10 hfs
  unfold LibOrder.encodeBytes32 at hfs
  rw [Packed.dig.injEq, Packed.dig.injEq] at hfs
  obtain ⟨hm, ht, -⟩ := hfs
  simp only [pre_keccak256] at hm ht
  unfold LibOrder.encodeBytes at hm ht
  have hmd := ofBytes_nil_inj _ _ hm
  have htd := ofBytes_nil_inj _ _ ht
  subst q1 q2 q3 q4 q5 q6 q7 q8 q9 q10 hmd htd
  rfl

/-- Witness for C6 at a concrete well-formed order. -/
theorem getOrderHash_field_sensitivity_witness :
    sampleOrder.WF ∧ sampleOrder = sampleOrder :=
  ⟨by decide,
    getOrderHash_field_sensitivity sampleOrder sampleOrder 99
      (by decide) (by decide) rfl⟩

/-- Claim C7: over any sequence of fill operations on one order (with a positive
`takerAssetAmount`), the filled amount is non-decreasing and never exceeds
`takerAssetAmount`; a fill that would overshoot is rejected (no state
change); the status is `FULLY_FILLED` exactly when the bound is reached,
and from that status every further fill is rejected. -/
theorem fill_monotonicity
    (t : Nat) (h0 : Digest) (fills : List Nat) (ht : 0 < t) :
    (LibOrder.applyFills t (LibOrder.initialOrderInfo h0)
        fills).orderTakerAssetFilledAmount ≤ t
    ∧ (∀ l1 l2, fills = l1 ++ l2 →
        (LibOrder.applyFills t (LibOrder.initialOrderInfo h0)
            l1).orderTakerAssetFilledAmount ≤
          (LibOrder.applyFills t (LibOrder.initialOrderInfo h0)
            fills).orderTakerAssetFilledAmount)
    ∧ ((LibOrder.applyFills t (LibOrder.initialOrderInfo h0)
          fills).orderTakerAssetFilledAmount = t ↔
        (LibOrder.applyFills t (LibOrder.initialOrderInfo h0)
          fills).orderStatus = .fullyFilled)
    ∧ (∀ (i : LibOrder.OrderInfo) (a : Nat),
        t < i.orderTakerAssetFilledAmount + a → LibOrder.recordFill t i a = none)
    ∧ ((LibOrder.applyFills t (LibOrder.initialOrderInfo h0)
          fills).orderStatus = .fullyFilled →
        ∀ a, LibOrder.recordFill t
          (LibOrder.applyFills t (LibOrder.initialOrderInfo h0) fills) a = none) := by
  have hinv := LibOrder.applyFills_inv t fills (LibOrder.initialOrderInfo h0)
    (LibOrder.fillInv_initial t h0 ht)
  obtain ⟨hle, hiff, -⟩ := hinv
  refine ⟨hle, ?_, hiff.symm, ?_, ?_⟩
  · intro l1 l2 hsplit
    rw [hsplit, LibOrder.applyFills_append]
    exact LibOrder.applyFills_mono t l2 _
  · intro i a hover
    exact LibOrder.recordFill_of_overshoot t i a hover
  · intro hfull a
    exact LibOrder.recordFill_of_terminal t _ a (by
      rw [hfull]
      rfl)

/-- Witness for C7: the golden sequence of the specification — filling 500
then 1500 of a 2000-unit order reaches exactly 2000 and `FULLY_FILLED`,
and a further fill of 1 is rejected. -/
theorem fill_monotonicity_witness :
    (LibOrder.applyFills 2000 (LibOrder.initialOrderInfo (keccak256 Packed.nil))
        [500, 1500]).orderTakerAssetFilledAmount = 2000
    ∧ (LibOrder.applyFills 2000 (LibOrder.initialOrderInfo (keccak256 Packed.nil))
        [500, 1500]).orderStatus = .fullyFilled
    ∧ LibOrder.recordFill 2000
        (LibOrder.applyFills 2000
          (LibOrder.initialOrderInfo (keccak256 Packed.nil)) [500, 1500]) 1 =
        none :=
  ⟨by decide, by decide,
    (fill_monotonicity 2000 (keccak256 Packed.nil) [500, 1500]
      (by decide)).2.2.2.2 (by decide) 1⟩

/-- Claim C9: `subscribe` appends exactly one subscription (the existing list is
preserved as a prefix), and the `requestId` placed in the outgoing
subscribe message is the zero-based index of the newly appended
subscription, so indexing the updated list at that `requestId` yields
exactly the new subscription. -/
theorem subscribe_appends_one
    {Opts Handler : Type} (st : WsChannel.ChannelState Opts Handler)
    (opts : Opts) (handler : Handler) :
    (WsChannel.subscribe st opts handler).1.subscriptions =
      st.subscriptions ++ [⟨opts, handler⟩]
    ∧ (WsChannel.subscribe st opts handler).2.requestId =
        st.subscriptions.length
    ∧ (WsChannel.subscribe st opts handler).1.subscriptions[
        (WsChannel.subscribe st opts handler).2.requestId]? =
        some ⟨opts, handler⟩ := by
  refine ⟨rfl, by simp [WsChannel.subscribe], ?_⟩
  simp only [WsChannel.subscribe, List.length_append, List.length_cons,
    List.length_nil, Nat.zero_add, Nat.add_sub_cancel]
  exact List.getElem?_concat_length ..

namespace WsChannel

theorem handle_none {Opts Handler Data Err Payload : Type}
    (subs : List (Subscription Opts Handler))
    (parse : Data → Except Err (ParserResult Payload)) :
    handleWebSocketMessage subs none parse = alertAllHandlersToError subs := rfl

theorem handle_error {Opts Handler Data Err Payload : Type}
    (subs : List (Subscription Opts Handler)) (d : Data) (e : Err)
    (parse : Data → Except Err (ParserResult Payload))
    (hp : parse d = .error e) :
    handleWebSocketMessage subs (some d) parse = alertAllHandlersToError subs := by
  simp [handleWebSocketMessage, hp]

theorem handle_unknown_requestId {Opts Handler Data Err Payload : Type}
    (subs : List (Subscription Opts Handler)) (d : Data)
    (parse : Data → Except Err (ParserResult Payload)) (pr : ParserResult Payload)
    (hp : parse d = .ok pr) (hl : subs[pr.requestId]? = none) :
    handleWebSocketMessage subs (some d) parse = alertAllHandlersToError subs := by
  simp [handleWebSocketMessage, hp, hl]

theorem handle_snapshot {Opts Handler Data Err Payload : Type}
    (subs : List (Subscription Opts Handler)) (d : Data)
    (parse : Data → Except Err (ParserResult Payload)) (pr : ParserResult Payload)
    (sub : Subscription Opts Handler)
    (hp : parse d = .ok pr) (hl : subs[pr.requestId]? = some sub)
    (hmt : pr.msgType = .snapshot) :
    handleWebSocketMessage subs (some d) parse =
      [.onSnapshot pr.requestId sub.subscriptionOpts pr.payload] := by
  simp [handleWebSocketMessage, hp, hl, hmt]

theorem handle_update {Opts Handler Data Err Payload : Type}
    (subs : List (Subscription Opts Handler)) (d : Data)
    (parse : Data → Except Err (ParserResult Payload)) (pr : ParserResult Payload)
    (sub : Subscription Opts Handler)
    (hp : parse d = .ok pr) (hl : subs[pr.requestId]? = some sub)
    (hmt : pr.msgType = .update) :
    handleWebSocketMessage subs (some d) parse =
      [.onUpdate pr.requestId sub.subscriptionOpts pr.payload] := by
  simp [handleWebSocketMessage, hp, hl, hmt]

theorem handle_unknown_type {Opts Handler Data Err Payload : Type}
    (subs : List (Subscription Opts Handler)) (d : Data)
    (parse : Data → Except Err (ParserResult Payload)) (pr : ParserResult Payload)
    (sub : Subscription Opts Handler)
    (hp : parse d = .ok pr) (hl : subs[pr.requestId]? = some sub)
    (hmt : pr.msgType = .unknown) :
    handleWebSocketMessage subs (some d) parse =
      [.onError pr.requestId sub.subscriptionOpts] := by
  simp [handleWebSocketMessage, hp, hl, hmt]

end WsChannel

/-- Claim C10: error routing of `_handleWebSocketMessage` — a message with no
data field, a parse failure, or an unknown `requestId` invokes `onError`
on every registered subscription (and those alert events contain no
snapshot or update callback); an `onSnapshot` (resp. `onUpdate`) callback
fires only when parsing succeeded with type Snapshot (resp. Update), on
exactly the one subscription at index `requestId`, and is then the only
handler invocation of the message. -/
theorem handleWebSocketMessage_routing
    {Opts Handler Data Err Payload : Type}
    (subs : List (WsChannel.Subscription Opts Handler)) (msgData : Option Data)
    (parse : Data → Except Err (WsChannel.ParserResult Payload)) :
    (msgData = none →
      WsChannel.handleWebSocketMessage subs msgData parse =
        WsChannel.alertAllHandlersToError subs)
    ∧ (∀ d e, msgData = some d → parse d = .error e →
        WsChannel.handleWebSocketMessage subs msgData parse =
          WsChannel.alertAllHandlersToError subs)
    ∧ (∀ d pr, msgData = some d → parse d = .ok pr →
        subs[pr.requestId]? = none →
        WsChannel.handleWebSocketMessage subs msgData parse =
          WsChannel.alertAllHandlersToError subs)
    ∧ (∀ ev : WsChannel.HandlerEvent Opts Payload,
        ev ∈ WsChannel.alertAllHandlersToError subs →
        ∃ i opts, ev = WsChannel.HandlerEvent.onError i opts)
    ∧ (∀ i opts p,
        WsChannel.HandlerEvent.onSnapshot i opts p ∈
          WsChannel.handleWebSocketMessage subs msgData parse →
        ∃ d pr sub, msgData = some d ∧ parse d = .ok pr ∧
          pr.msgType = .snapshot ∧ pr.requestId = i ∧ pr.payload = p ∧
          subs[i]? = some sub ∧ sub.subscriptionOpts = opts ∧
          WsChannel.handleWebSocketMessage subs msgData parse =
            [WsChannel.HandlerEvent.onSnapshot i opts p])
    ∧ (∀ i opts p,
        WsChannel.HandlerEvent.onUpdate i opts p ∈
          WsChannel.handleWebSocketMessage subs msgData parse →
        ∃ d pr sub, msgData = some d ∧ parse d = .ok pr ∧
          pr.msgType = .update ∧ pr.requestId = i ∧ pr.payload = p ∧
          subs[i]? = some sub ∧ sub.subscriptionOpts = opts ∧
          WsChannel.handleWebSocketMessage subs msgData parse =
            [WsChannel.HandlerEvent.onUpdate i opts p]) := by
  refine ⟨?_, ?_, ?_, ?_, ?_, ?_⟩
  · intro h
    subst h
    rfl
  · intro d e hd hp
    subst hd
    exact WsChannel.handle_error subs d e parse hp
  · intro d pr hd hp hl
    subst hd
    exact WsChannel.handle_unknown_requestId subs d parse pr hp hl
  · intro ev hev
    exact WsChannel.mem_alertAll subs ev hev
  · intro i opts p hmem
    cases msgData with
    | none =>
      rw [WsChannel.handle_none] at hmem
      obtain ⟨j, o', he⟩ := WsChannel.mem_alertAll subs _ hmem
      simp at he
    | some d =>
      cases hp : parse d with
      | error e =>
        rw [WsChannel.handle_error subs d e parse hp] at hmem
        obtain ⟨j, o', he⟩ := WsChannel.mem_alertAll subs _ hmem
        simp at he
      | ok pr =>
        cases hl : subs[pr.requestId]? with
        | none =>
          rw [WsChannel.handle_unknown_requestId subs d parse pr hp hl] at hmem
          obtain ⟨j, o', he⟩ := WsChannel.mem_alertAll subs _ hmem
          simp at he
        | some sub =>
          cases hmt : pr.msgType with
          | snapshot =>
            rw [WsChannel.handle_snapshot subs d parse pr sub hp hl hmt] at hmem
            simp only [List.mem_singleton,
              WsChannel.HandlerEvent.onSnapshot.injEq] at hmem
            obtain ⟨hi, ho, hpay⟩ := hmem
            refine ⟨d, pr, sub, rfl, hp, hmt, hi.symm, hpay.symm, ?_, ho.symm, ?_⟩
            · rw [← hi] at hl
              exact hl
            · rw [WsChannel.handle_snapshot subs d parse pr sub hp hl hmt,
                hi, ho, hpay]
          | update =>
            rw [WsChannel.handle_update subs d parse pr sub hp hl hmt] at hmem
            simp at hmem
          | unknown =>
            rw [WsChannel.handle_unknown_type subs d parse pr sub hp hl hmt] at hmem
            simp at hmem
  · intro i opts p hmem
    cases msgData with
    | none =>
      rw [WsChannel.handle_none] at hmem
      obtain ⟨j, o', he⟩ := WsChannel.mem_alertAll subs _ hmem
      simp at he
    | some d =>
      cases hp : parse d with
      | error e =>
        rw [WsChannel.handle_error subs d e parse hp] at hmem
        obtain ⟨j, o', he⟩ := WsChannel.mem_alertAll subs _ hmem
        simp at he
      | ok pr =>
        cases hl : subs[pr.requestId]? with
        | none =>
          rw [WsChannel.handle_unknown_requestId subs d parse pr hp hl] at hmem
          obtain ⟨j, o', he⟩ := WsChannel.mem_alertAll subs _ hmem
          simp at he
        | some sub =>
          cases hmt : pr.msgType with
          | snapshot =>
            rw [WsChannel.handle_snapshot subs d parse pr sub hp hl hmt] at hmem
            simp at hmem
          | update =>
            rw [WsChannel.handle_update subs d parse pr sub hp hl hmt] at hmem
            simp only [List.mem_singleton,
              WsChannel.HandlerEvent.onUpdate.injEq] at hmem
            obtain ⟨hi, ho, hpay⟩ := hmem
            refine ⟨d, pr, sub, rfl, hp, hmt, hi.symm, hpay.symm, ?_, ho.symm, ?_⟩
            · rw [← hi] at hl
              exact hl
            · rw [WsChannel.handle_update subs d parse pr sub hp hl hmt,
                hi, ho, hpay]
          | unknown =>
            rw [WsChannel.handle_unknown_type subs d parse pr sub hp hl hmt] at hmem
            simp at hmem

/-- A concrete subscription list for the routing witness. -/
def sampleSubs : List (WsChannel.Subscription Nat Nat) :=
  [{ subscriptionOpts := 5, handler := 7 }]

/-- A concrete parse function for the routing witness. -/
def sampleParse : Nat → Except Nat (WsChannel.ParserResult Nat) :=
  fun d => .ok { msgType := .snapshot, requestId := 0, payload := d }

/-- Witness for C10: a message with no data field alerts every handler. -/
theorem handleWebSocketMessage_routing_witness :
    WsChannel.handleWebSocketMessage sampleSubs (none : Option Nat) sampleParse =
      WsChannel.alertAllHandlersToError sampleSubs :=
  (handleWebSocketMessage_routing sampleSubs none sampleParse).1 rfl
